import Mathlib

/-
Verification development for scripts/doh/get-doh-publicservers.py.

The Python module is shallowly embedded below.  Strings are Lean `String`s
(manipulated through their character lists), machine integers are `Nat`,
Python floats in the change-ratio guard are modelled by exact rationals
(`ℚ`), fallible operations return `Option`, and the filesystem effects of
`run` / `_write_lists` are modelled by an explicit association list from
file names to contents.  DNS lookups are modelled by an oracle parameter
giving, for each record type, hostname, pass number, chosen server and
attempt number, either `none` (exception / timeout) or `some answers`.
-/

namespace DoH

/-- The empty string as a named constant. -/
def emptyStr : String := ""

/-- Whitespace as recognized by Python `str.strip()` (ASCII part; the
exotic Unicode space characters never occur in this data). -/
def pyIsSpace (c : Char) : Bool :=
  (c == ' ') || (c == '\t') || (c == '\n') || (c == '\r') || (c == '\x0b') || (c == '\x0c')

/-- Python `value.strip()`. -/
def pyStrip (s : String) : String :=
  String.mk (((s.toList.dropWhile pyIsSpace).reverse.dropWhile pyIsSpace).reverse)

/-- Python `value.lower()` (ASCII case mapping, which covers hostnames). -/
def pyLower (s : String) : String :=
  String.mk (s.toList.map Char.toLower)

/-- Python `value.rstrip(".")`: removes ALL trailing dot characters. -/
def rstripDots (s : String) : String :=
  String.mk ((s.toList.reverse.dropWhile (fun c => c == '.')).reverse)

/-- Python `value.strip("[")`: removes leading and trailing occurrences of a character. -/
def stripChar (c : Char) (s : String) : String :=
  String.mk (((s.toList.dropWhile (fun x => x == c)).reverse.dropWhile (fun x => x == c)).reverse)

/-- Python `s.split(c)` on a list of characters: always returns at least one
(possibly empty) piece, empty pieces between consecutive separators kept. -/
def splitCharList (c : Char) : List Char → List (List Char)
  | [] => [[]]
  | x :: xs =>
    let r := splitCharList c xs
    if x == c then [] :: r
    else
      match r with
      | h :: t => (x :: h) :: t
      | [] => [[x]]

/-- Python `s.split(c)` on strings. -/
def splitOnChar (c : Char) (s : String) : List String :=
  (splitCharList c s.toList).map String.mk

/-- Python `"\n".join(items)`. -/
def joinNL : List String → String
  | [] => ""
  | [x] => x
  | x :: y :: xs => x ++ "\n" ++ joinNL (y :: xs)

/-- Embedding of `DoHListBuilder._normalize`: `None`/empty input maps to
`none`; otherwise the value is stripped of surrounding whitespace,
lower-cased and stripped of all trailing dots (`rstrip(".")`), and the
result is returned unless it became empty. -/
def normalize : Option String → Option String
  | none => none
  | some v =>
    if v = "" then none
    else
      let w := rstripDots (pyLower (pyStrip v))
      if w = "" then none else some w

/-- Decimal value of a list of digit characters. -/
def decDigitsVal (l : List Char) : Nat :=
  l.foldl (fun a c => a * 10 + (c.toNat - 48)) 0

/-- One dotted-quad octet, with Python `ipaddress` strictness: decimal
digits only, at most three of them, no leading zero, value at most 255. -/
def parseOctet (s : String) : Option Nat :=
  let cs := s.toList
  if cs.length = 0 then none
  else if 3 < cs.length then none
  else if ¬ cs.all Char.isDigit then none
  else if 1 < cs.length ∧ cs.head? = some '0' then none
  else
    let v := decDigitsVal cs
    if 255 < v then none else some v

/-- Numeric value of an IPv4 address literal, mirroring
`ipaddress.IPv4Address`: exactly four octets separated by dots. -/
def ipv4ToNat (s : String) : Option Nat :=
  match (splitOnChar '.' s).mapM parseOctet with
  | some [a, b, c, d] => some (((a * 256 + b) * 256 + c) * 256 + d)
  | _ => none

/-- Embedding of `DoHListBuilder._is_ipv4`. -/
def is_ipv4 (s : String) : Bool :=
  (ipv4ToNat s).isSome

/-- Hexadecimal digit test (both cases), as accepted by `ipaddress` hextets. -/
def isHexDigitChar (c : Char) : Bool :=
  c.isDigit || (('a' ≤ c) && (c ≤ 'f')) || (('A' ≤ c) && (c ≤ 'F'))

/-- Value of one hexadecimal digit character. -/
def hexVal (c : Char) : Nat :=
  if c.isDigit then c.toNat - 48
  else if ('a' ≤ c) && (c ≤ 'f') then c.toNat - 87
  else c.toNat - 55

/-- One IPv6 hextet: one to four hexadecimal digits. -/
def parseHextet (s : String) : Option Nat :=
  let cs := s.toList
  if cs.length = 0 then none
  else if 4 < cs.length then none
  else if ¬ cs.all isHexDigitChar then none
  else some (cs.foldl (fun a c => a * 16 + hexVal c) 0)

/-- One colon-separated part of an IPv6 literal: either a raw textual part
or a numeric hextet spliced in by the trailing-IPv4 expansion. -/
abbrev V6Part := Sum String Nat

/-- A part is empty exactly when it is a raw empty string. -/
def partIsEmpty : V6Part → Bool
  | Sum.inl s => s == ""
  | Sum.inr _ => false

/-- Hextet value of one part. -/
def partVal : V6Part → Option Nat
  | Sum.inl s => parseHextet s
  | Sum.inr n => some n

/-- Fold a list of 16-bit groups into one number (big-endian). -/
def fold16 (l : List Nat) : Nat :=
  l.foldl (fun a v => a * 65536 + v) 0

/-- Numeric value of an IPv6 literal without scope id, mirroring
`ipaddress.IPv6Address._ip_int_from_string`: at least three colon-separated
parts, optional trailing embedded IPv4 (expanded into two hextets), at most
nine parts, at most one empty inner part (the `::` compression), leading or
trailing single colon refused, and when there is no compression exactly
eight parts are required. -/
def ipv6CoreToNat (s : String) : Option Nat :=
  let parts0 := splitOnChar ':' s
  if parts0.length < 3 then none
  else
    let lastS := parts0.getLastD emptyStr
    let withV4 : Option (List V6Part) :=
      if lastS.toList.contains '.' then
        (ipv4ToNat lastS).map
          (fun v => parts0.dropLast.map Sum.inl ++ [Sum.inr (v / 65536), Sum.inr (v % 65536)])
      else some (parts0.map Sum.inl)
    match withV4 with
    | none => none
    | some parts =>
      if 9 < parts.length then none
      else
        let n := parts.length
        let innerEmpties :=
          (List.range n).filter
            (fun i => decide (0 < i) && decide (i < n - 1) && partIsEmpty (parts.getD i (Sum.inr 0)))
        match innerEmpties with
        | [] =>
          if n ≠ 8 then none
          else if partIsEmpty (parts.headD (Sum.inr 0)) then none
          else if partIsEmpty (parts.getLastD (Sum.inr 0)) then none
          else (parts.mapM partVal).map fold16
        | [i] =>
          let headEmpty := partIsEmpty (parts.headD (Sum.inr 0))
          let lastEmpty := partIsEmpty (parts.getLastD (Sum.inr 0))
          if headEmpty ∧ i - 1 ≠ 0 then none
          else if lastEmpty ∧ n - i - 2 ≠ 0 then none
          else
            let hi := if headEmpty then i - 1 else i
            let lo := if lastEmpty then n - i - 2 else n - i - 1
            if 7 < hi + lo then none
            else
              let skipped := 8 - (hi + lo)
              match (parts.take hi).mapM partVal, (parts.drop (n - lo)).mapM partVal with
              | some his, some los => some (fold16 (his ++ List.replicate skipped 0 ++ los))
              | _, _ => none
        | _ :: _ :: _ => none

/-- Numeric value of an IPv6 literal, including the scope-id split of
`ipaddress.IPv6Address` (`addr%scope`, scope non-empty and free of `%`;
the scope does not contribute to the numeric value). -/
def ipv6ToNat (s : String) : Option Nat :=
  match splitOnChar '%' s with
  | [addr] => ipv6CoreToNat addr
  | [addr, scope] =>
    if scope = "" then none
    else ipv6CoreToNat addr
  | _ => none

/-- Embedding of `DoHListBuilder._is_ipv6`. -/
def is_ipv6 (s : String) : Bool :=
  (ipv6ToNat s).isSome

/-- The fixed multi-level TLD set of `_is_base_domain`. -/
def multi_tlds : List String :=
  ["co.uk", "co.za", "co.jp", "co.nz", "co.in", "co.kr",
   "com.au", "com.br", "com.cn", "com.mx", "com.ar",
   "org.uk", "net.au", "gov.uk", "ac.uk", "edu.au"]

/-- Embedding of `DoHListBuilder._is_base_domain`: guards on empty string,
missing dot and the bare dot, then splits on dots, DISCARDS empty labels,
and tests for exactly two labels, or exactly three when the last two form
an entry of `multi_tlds`. -/
def is_base_domain (fqdn : String) : Bool :=
  if fqdn = "" then false
  else if ¬ fqdn.toList.contains '.' then false
  else if fqdn = "." then false
  else
    let labels := (splitOnChar '.' fqdn).filter (fun l => ¬ l == "")
    if labels.length = 0 then false
    else if 3 ≤ labels.length ∧
        (labels.getD (labels.length - 2) emptyStr ++ "." ++ labels.getLastD emptyStr) ∈ multi_tlds then
      decide (labels.length = 3)
    else decide (labels.length = 2)

/-- Insertion step of stable insertion sort with a boolean `le`. -/
def insertLe (le : String → String → Bool) (x : String) : List String → List String
  | [] => [x]
  | y :: ys => if le x y then x :: y :: ys else y :: insertLe le x ys

/-- Sorting with a boolean `le`, modelling Python `sorted` (the claims only
use the membership and pairwise-orderedness of the output, which are shared
by every correct sort). -/
def sortLe (le : String → String → Bool) (l : List String) : List String :=
  l.foldr (insertLe le) []

/-- Sort key for IPv4 literals: the numeric value.  In the source the key is
`ipaddress.IPv4Address(x)` and every sorted element is a valid literal; the
`getD` default is never reached there. -/
def key4 (s : String) : Nat := (ipv4ToNat s).getD 0

/-- Sort key for IPv6 literals: the numeric value. -/
def key6 (s : String) : Nat := (ipv6ToNat s).getD 0

/-- Numeric IPv4 comparison. -/
def le4 (a b : String) : Bool := decide (key4 a ≤ key4 b)

/-- Numeric IPv6 comparison. -/
def le6 (a b : String) : Bool := decide (key6 a ≤ key6 b)

/-- Lexicographic comparison of character lists by code point, structural so
that it evaluates inside the kernel. -/
def listLe : List Char → List Char → Bool
  | [], _ => true
  | _ :: _, [] => false
  | a :: as, b :: bs =>
    if a < b then true
    else if b < a then false
    else listLe as bs

/-- Lexicographic string comparison (Python code-point order). -/
def strLeB (a b : String) : Bool := listLe a.toList b.toList

/-- Embedding of `sort_items` inside `_write_lists`: deduplicate, then sort
with an IPv4 numeric key when every member parses as IPv4, else an IPv6
numeric key when every member parses as IPv6, else string order.  (Python
computes all keys up front, so one unparsable member triggers the
fallback.) -/
def sort_items (l : List String) : List String :=
  let u := l.dedup
  if u.all (fun s => (ipv4ToNat s).isSome) then sortLe le4 u
  else if u.all (fun s => (ipv6ToNat s).isSome) then sortLe le6 u
  else sortLe strLeB u

/-- Classification step of `_write_lists` after the exclusion test: domains
are tested with `is_base_domain`, address literals with membership in the
(non-empty) base-domain-address set. -/
def classifyBD (bdIps : List String) (n : String) : Bool :=
  if ¬ is_ipv4 n ∧ ¬ is_ipv6 n then is_base_domain n
  else decide (bdIps ≠ [] ∧ n ∈ bdIps)

/-- The classification loop of `_write_lists`: normalize each item (dropping
failures), route it to excluded / base-domain / filtered, preserving input
order (mirrors the three `append` calls). -/
def rawBuckets (excl bdIps : List String) : List String → List String × List String × List String
  | [] => ([], [], [])
  | item :: rest =>
    let r := rawBuckets excl bdIps rest
    match normalize (some item) with
    | none => r
    | some n =>
      if n ∈ excl then (r.1, n :: r.2.1, r.2.2)
      else if classifyBD bdIps n then (n :: r.1, r.2.1, r.2.2)
      else (r.1, r.2.1, n :: r.2.2)

/-- The curated sequences computed by `_write_lists` before any file is
touched. -/
structure Curated where
  baseDomains : List String
  excluded : List String
  filtered : List String
  allItems : List String
  filteredList : List String

/-- The pure part of `_write_lists`: buckets deduplicated and sorted by
`sort_items`, the all-list, and the externally visible filtered list
(`filtered` alone under `--filter-base-domains`, otherwise
`sorted(set(filtered + base_domains))` in plain string order). -/
def curate (excl bdIps items : List String) (filterBaseDomains : Bool) : Curated :=
  let r := rawBuckets excl bdIps items
  let bd := sort_items r.1
  let ex := sort_items r.2.1
  let fi := sort_items r.2.2
  let allI := sort_items (bd ++ ex ++ fi)
  let fl := if filterBaseDomains then fi else sortLe strLeB (fi ++ bd).dedup
  ⟨bd, ex, fi, allI, fl⟩

/-- The output directory as an association list from file names to file
contents. -/
abbrev FileSys := List (String × String)

/-- Read a file (none when absent). -/
def fsGet (fs : FileSys) (name : String) : Option String :=
  (fs.find? (fun p => p.1 == name)).map (fun p => p.2)

/-- Write (create or overwrite) a file. -/
def fsSet (fs : FileSys) (name content : String) : FileSys :=
  (name, content) :: fs.filter (fun p => ! (p.1 == name))

/-- Byte-order mark written by the `utf-8-sig` encoding of the source. -/
def bom : String := "\uFEFF"

/-- Contents of one output file: BOM, then one token per line, no trailing
newline. -/
def fileText (items : List String) : String := bom ++ joinNL items

/-- Return value of the embedded `_write_lists`. -/
structure WriteResult where
  fs : FileSys
  nAll : Nat
  nFiltered : Nat
  nExcluded : Nat
  nBase : Nat

/-- Embedding of `_write_lists`: the raw (all-items) file is always written;
the filtered file only when the filtered list is non-empty and differs from
the all-list; the exclusions and basedomains files only when non-empty. -/
def write_lists (fs : FileSys) (rawPath filteredPath exclusionsPath basedomainsPath : String)
    (excl bdIps items : List String) (filterBaseDomains : Bool) : WriteResult :=
  let c := curate excl bdIps items filterBaseDomains
  let fs1 := fsSet fs rawPath (fileText c.allItems)
  let fs2 := if c.filteredList ≠ [] ∧ c.filteredList ≠ c.allItems
             then fsSet fs1 filteredPath (fileText c.filteredList) else fs1
  let fs3 := if c.excluded ≠ [] then fsSet fs2 exclusionsPath (fileText c.excluded) else fs2
  let fs4 := if c.baseDomains ≠ [] then fsSet fs3 basedomainsPath (fileText c.baseDomains) else fs3
  ⟨fs4, c.allItems.length, c.filteredList.length, c.excluded.length, c.baseDomains.length⟩

/-- Embedding of `_count_entries`: number of lines with non-whitespace
content; 0 for a missing file. -/
def count_entries (fs : FileSys) (name : String) : Nat :=
  match fsGet fs name with
  | none => 0
  | some content => ((splitOnChar '\n' content).filter (fun l => ¬ pyStrip l == emptyStr)).length

/-- Embedding of `_check_ratio` (`tol` is `warn_change_ratio`).  The Python
float arithmetic is modelled by exact rationals.  Returns the pass flag
together with the warning (artifact family and observed new/old quotient)
emitted on failure. -/
def checkRatioGuard (tol : ℚ) (oldCount newCount : Nat) (dataType : String) :
    Bool × Option (String × ℚ) :=
  if oldCount = 0 ∨ newCount = 0 then (true, none)
  else
    let r : ℚ := (newCount : ℚ) / (oldCount : ℚ)
    if r < 1 - tol ∨ 1 + tol < r then (false, some (dataType, r)) else (true, none)

/-- DNS oracle: record type, hostname, pass number, server (`none` = system
resolver), attempt number; yields `none` on exception/timeout and
`some answers` on success. -/
abbrev Oracle := String → String → Nat → Option String → Nat → Option (List String)

/-- Two attempts against one server (`for attempt in range(2)`). -/
def attemptLookup (oracle : Oracle) (rt fqdn : String) (passNum : Nat) (srv : Option String) :
    Option (List String) :=
  match oracle rt fqdn passNum srv 0 with
  | some ans => some ans
  | none => oracle rt fqdn passNum srv 1

/-- Fall through the server list, returning the answers of the first
successful attempt, or the empty set when every server is exhausted. -/
def tryServers (oracle : Oracle) (rt fqdn : String) (passNum : Nat) :
    List (Option String) → List String
  | [] => []
  | srv :: rest =>
    match attemptLookup oracle rt fqdn passNum srv with
    | some ans => ans
    | none => tryServers oracle rt fqdn passNum rest

/-- Server order of `resolve_single_lookup`: the pass-rotated primary first,
then every other configured server. -/
def serversToTry (dnsServers : List String) (passNum : Nat) : List (Option String) :=
  let servers : List (Option String) := if dnsServers = [] then [none] else dnsServers.map some
  let primary := servers.getD (passNum % servers.length) none
  primary :: servers.filter (fun s => ! (s == primary))

/-- Embedding of `resolve_single_lookup`. -/
def resolve_single_lookup (oracle : Oracle) (dnsServers : List String) (rt fqdn : String)
    (passNum : Nat) : List String :=
  tryServers oracle rt fqdn passNum (serversToTry dnsServers passNum)

/-- Record type names. -/
def rtA : String := "A"

/-- Record type name for IPv6 resolution. -/
def rtAAAA : String := "AAAA"

/-- Numeric sort key selected by the record type. -/
def numKey (rt s : String) : Nat := if rt = rtA then key4 s else key6 s

/-- Embedding of `_resolve_fqdns`: five passes over the deduplicated,
sorted batch, one `resolve_single_lookup` per hostname per pass, unioned
and deduplicated, then sorted by the numeric IPv4 / IPv6 value (string
order for any other record type). -/
def resolve_fqdns (oracle : Oracle) (dnsServers : List String) (fqdns : List String)
    (rt : String) : List String :=
  let uniq := sortLe strLeB fqdns.dedup
  let allIps :=
    ((List.range 5).flatMap
      (fun p => uniq.flatMap (fun f => resolve_single_lookup oracle dnsServers rt f p))).dedup
  if rt = rtA then sortLe le4 allIps
  else if rt = rtAAAA then sortLe le6 allIps
  else sortLe strLeB allIps

/-- Locate the first occurrence of `sep` in a character list, returning the
part before it and the part after it (Python `split(sep, 1)` when `sep`
occurs). -/
def breakOnSub (sep : List Char) : List Char → Option (List Char × List Char)
  | [] => none
  | x :: xs =>
    if sep.isPrefixOf (x :: xs) then some ([], (x :: xs).drop sep.length)
    else
      match breakOnSub sep xs with
      | some (pre, post) => some (x :: pre, post)
      | none => none

/-- Host extraction of `run`: strip the scheme, cut at the first `/`, then
either unwrap a bracketed IPv6 literal or cut at the first `:`. -/
def extractHost (url : String) : String :=
  let tail :=
    match breakOnSub [':', '/', '/'] url.toList with
    | some (_, post) => String.mk post
    | none => url
  let host0 := (splitOnChar '/' tail).headD emptyStr
  match host0.toList.head? with
  | some c =>
    if c == '[' then stripChar '[' ((splitOnChar ']' host0).headD emptyStr)
    else (splitOnChar ':' host0).headD emptyStr
  | none => (splitOnChar ':' host0).headD emptyStr

/-- FQDN extraction loop of `run`: normalize each extracted host and keep it
only when it is neither a valid IPv4 nor a valid IPv6 literal. -/
def extract_fqdns (urls : List String) : List String :=
  urls.foldr
    (fun url acc =>
      match normalize (some (extractHost url)) with
      | some n => if ¬ is_ipv4 n ∧ ¬ is_ipv6 n then n :: acc else acc
      | none => acc) []

/-- Line post-processing applied to the scraper's stdout in `run`. -/
def prepUrls (lines : List String) : List String :=
  (lines.map pyStrip).filter (fun l => ¬ l == emptyStr)

/-- The FQDN batch of `run`: `sorted(set(fqdns))`. -/
def fqdnBatch (urls : List String) : List String :=
  sortLe strLeB (extract_fqdns urls).dedup

/-- Configuration surface of `DoHListBuilder` relevant to the claims
(`tol` is `warn_change_ratio`). -/
structure RunConfig where
  resolveIps : Bool
  dnsServers : List String
  exclusions : List String
  cleanOutput : Bool
  tol : ℚ
  skipRatioCheck : Bool
  filterBaseDomains : Bool

/-- Output file names used by `run`. -/
def fnFqdn : String := "doh_fqdn.txt"

/-- Filtered FQDN list file. -/
def fnFqdnFiltered : String := "doh_fqdn_filtered.txt"

/-- FQDN exclusions file. -/
def fnFqdnExclusions : String := "doh_fqdn_exclusions.txt"

/-- FQDN base-domains file. -/
def fnFqdnBasedomains : String := "doh_fqdn_basedomains.txt"

/-- IPv4 list file. -/
def fnIpv4 : String := "doh_ipv4.txt"

/-- Filtered IPv4 list file. -/
def fnIpv4Filtered : String := "doh_ipv4_filtered.txt"

/-- IPv4 exclusions file. -/
def fnIpv4Exclusions : String := "doh_ipv4_exclusions.txt"

/-- IPv4 base-domains file. -/
def fnIpv4Basedomains : String := "doh_ipv4_basedomains.txt"

/-- IPv6 list file. -/
def fnIpv6 : String := "doh_ipv6.txt"

/-- Filtered IPv6 list file. -/
def fnIpv6Filtered : String := "doh_ipv6_filtered.txt"

/-- IPv6 exclusions file. -/
def fnIpv6Exclusions : String := "doh_ipv6_exclusions.txt"

/-- IPv6 base-domains file. -/
def fnIpv6Basedomains : String := "doh_ipv6_basedomains.txt"

/-- Does the name carry the `.txt` suffix matched by the cleanup glob? -/
def endsWithTxt (s : String) : Bool :=
  s.toList.reverse.take 4 == ['t', 'x', 't', '.']

/-- The `--no-clean`-guarded deletion in `run`: every `*.txt` file of the
output directory is removed. -/
def fsCleanTxt (fs : FileSys) : FileSys :=
  fs.filter (fun p => ! endsWithTxt p.1)

/-- Artifact family label for FQDN lists. -/
def famFqdn : String := "fqdn"

/-- Artifact family label for IPv4 lists. -/
def famIpv4 : String := "ipv4"

/-- Artifact family label for IPv6 lists. -/
def famIpv6 : String := "ipv6"

/-- The three change-ratio checks of `run`, evaluated against the counts of
the PREVIOUS run's files (read before any cleanup). -/
def ratiosOk (cfg : RunConfig) (oracle : Oracle) (urls : List String) (fs0 : FileSys) : Bool :=
  let fqdns := fqdnBatch urls
  let ipv4 := if cfg.resolveIps then resolve_fqdns oracle cfg.dnsServers fqdns rtA else []
  let ipv6 := if cfg.resolveIps then resolve_fqdns oracle cfg.dnsServers fqdns rtAAAA else []
  (checkRatioGuard cfg.tol (count_entries fs0 fnFqdn) fqdns.length famFqdn).1
    && (checkRatioGuard cfg.tol (count_entries fs0 fnIpv4) ipv4.length famIpv4).1
    && (checkRatioGuard cfg.tol (count_entries fs0 fnIpv6) ipv6.length famIpv6).1

/-- Embedding of `DoHListBuilder.run`.  `scrape` is the scraper
collaborator's stdout lines (`none` models scraper failure, which also
covers the missing-scraper check since both `sys.exit(1)` at the same
point).  The result is the exit condition (`some 1` = non-zero exit,
`none` = success) together with the final state of the output directory.
Counting of the previous run's entries happens on `fs0`; the cleanup (when
enabled) happens BEFORE the scraper runs and before the ratio guard. -/
def run (cfg : RunConfig) (oracle : Oracle) (scrape : Option (List String)) (fs0 : FileSys) :
    Option Nat × FileSys :=
  let fs1 := if cfg.cleanOutput then fsCleanTxt fs0 else fs0
  match scrape with
  | none => (some 1, fs1)
  | some lines =>
    let urls := prepUrls lines
    let fqdns := fqdnBatch urls
    let baseFqdns := fqdns.filter is_base_domain
    let ipv4 := if cfg.resolveIps then resolve_fqdns oracle cfg.dnsServers fqdns rtA else []
    let ipv6 := if cfg.resolveIps then resolve_fqdns oracle cfg.dnsServers fqdns rtAAAA else []
    let bdIpv4 := if cfg.resolveIps ∧ baseFqdns ≠ [] then
        (resolve_fqdns oracle cfg.dnsServers baseFqdns rtA).dedup else []
    let bdIpv6 := if cfg.resolveIps ∧ baseFqdns ≠ [] then
        (resolve_fqdns oracle cfg.dnsServers baseFqdns rtAAAA).dedup else []
    if ¬ (cfg.skipRatioCheck = true ∨ ratiosOk cfg oracle urls fs0 = true) then (some 1, fs1)
    else
      let w1 := write_lists fs1 fnFqdn fnFqdnFiltered fnFqdnExclusions fnFqdnBasedomains
        cfg.exclusions [] fqdns cfg.filterBaseDomains
      if cfg.resolveIps then
        let w2 := write_lists w1.fs fnIpv4 fnIpv4Filtered fnIpv4Exclusions fnIpv4Basedomains
          cfg.exclusions bdIpv4 ipv4 cfg.filterBaseDomains
        let w3 := write_lists w2.fs fnIpv6 fnIpv6Filtered fnIpv6Exclusions fnIpv6Basedomains
          cfg.exclusions bdIpv6 ipv6 cfg.filterBaseDomains
        (none, w3.fs)
      else (none, w1.fs)

/-- Totality and transitivity of a boolean comparison, enough for insertion
sort to produce a pairwise-ordered output. -/
def IsTotalTrans (le : String → String → Bool) : Prop :=
  (∀ a b, le a b = true ∨ le b a = true) ∧
    (∀ a b c, le a b = true → le b c = true → le a c = true)

/-- Shorthand for "some input item normalizes to this token". -/
def FromInput (items : List String) (x : String) : Prop :=
  ∃ it ∈ items, normalize (some it) = some x

/-- Definition following the words of claim C5: the token split on dots
(WITHOUT discarding empty labels) has exactly two labels, or exactly three
whose last two form a multi-TLD entry. -/
def specIsBaseDomain (fqdn : String) : Bool :=
  let labels := splitOnChar '.' fqdn
  decide (labels.length = 2) ||
    (decide (labels.length = 3) &&
      decide ((labels.getD (labels.length - 2) emptyStr ++ "." ++
        labels.getLastD emptyStr) ∈ multi_tlds))

/-- Definition following the words of claim C6: trim surrounding
whitespace, lower-case, strip exactly one trailing dot; none for absent
input or input trimming to the empty string. -/
def specNormalize : Option String → Option String
  | none => none
  | some s =>
    if pyStrip s = "" then none
    else
      let t := pyLower (pyStrip s)
      some (if t.toList.getLast? = some '.' then String.mk t.toList.dropLast else t)

/-- A DNS oracle realizing the spec's resolver scenario: for the A record
of `host.example` on the system resolver, pass 0 answers one address, pass
2 answers two, every other attempt fails. -/
def exOracle : Oracle := fun rt f p srv att =>
  if rt = rtA ∧ f = "host.example" ∧ srv = none ∧ att = 0 then
    (if p = 0 then some ["1.1.1.1"]
     else if p = 2 then some ["1.1.1.1", "8.8.8.8"]
     else none)
  else none

/-- An oracle on which every lookup attempt fails. -/
def nilOracle : Oracle := fun _ _ _ _ _ => none

/-- Configuration with cleanup disabled (`--no-clean`), resolution skipped,
default ±20% tolerance, ratio check active. -/
def cfgNoClean : RunConfig :=
  ⟨false, [], [], false, 1/5, false, false⟩

/-- The same configuration with the DEFAULT cleanup enabled. -/
def cfgClean : RunConfig :=
  ⟨false, [], [], true, 1/5, false, false⟩

/-- A previous run's output directory: five FQDN entries. -/
def fsPrev : FileSys :=
  [(fnFqdn, fileText ["a.example", "b.example", "c.example", "d.example", "e.example"])]

/-- A scraper output with a single endpoint URL, so that the new FQDN count
(1) collapses to 20% of the old count (5) and the guard must reject. -/
def linesOne : List String := ["https://doh.one.example/dns-query"]

/-- URLs for the C10 counterexample: a plain IPv4 host and a host that is
the same literal followed by a space and a trailing dot. -/
def urlsCex : List String := ["https://1.1.1.1", "https://1.1.1.1 ."]

theorem insertLe_perm (le : String → String → Bool) (x : String) (l : List String) :
    List.Perm (insertLe le x l) (x :: l) := by
  induction l with
  | nil => exact List.Perm.refl _
  | cons y ys ih =>
    by_cases h : le x y
    · simp [insertLe, h]
    · simp only [insertLe, if_neg h]
      exact (ih.cons y).trans (List.Perm.swap x y ys)

theorem sortLe_perm (le : String → String → Bool) (l : List String) :
    List.Perm (sortLe le l) l := by
  induction l with
  | nil => exact List.Perm.refl _
  | cons x xs ih => exact (insertLe_perm le x _).trans (ih.cons x)

theorem mem_sortLe {le : String → String → Bool} {a : String} {l : List String} :
    a ∈ sortLe le l ↔ a ∈ l :=
  (sortLe_perm le l).mem_iff

theorem mem_insertLe {le : String → String → Bool} {x a : String} {l : List String} :
    a ∈ insertLe le x l ↔ a = x ∨ a ∈ l := by
  rw [(insertLe_perm le x l).mem_iff, List.mem_cons]

theorem pairwise_insertLe {le : String → String → Bool} (ht : IsTotalTrans le) (x : String)
    {l : List String} (h : l.Pairwise (fun a b => le a b = true)) :
    (insertLe le x l).Pairwise (fun a b => le a b = true) := by
  induction l with
  | nil => simp [insertLe]
  | cons y ys ih =>
    rcases List.pairwise_cons.mp h with ⟨hy, hys⟩
    by_cases hle : le x y
    · simp only [insertLe, if_pos hle]
      refine List.pairwise_cons.mpr ⟨?_, h⟩
      intro b hb
      rcases List.mem_cons.mp hb with rfl | hb
      · exact hle
      · exact ht.2 x y b hle (hy b hb)
    · simp only [insertLe, if_neg hle]
      refine List.pairwise_cons.mpr ⟨?_, ih hys⟩
      intro b hb
      rcases mem_insertLe.mp hb with heq | hb
      · rcases ht.1 x y with hxy | hyx
        · exact absurd hxy hle
        · rw [heq]
          exact hyx
      · exact hy b hb

theorem pairwise_sortLe {le : String → String → Bool} (ht : IsTotalTrans le) (l : List String) :
    (sortLe le l).Pairwise (fun a b => le a b = true) := by
  induction l with
  | nil => simp [sortLe]
  | cons x xs ih => exact pairwise_insertLe ht x ih

theorem isTotalTrans_le4 : IsTotalTrans le4 := by
  constructor
  · intro a b
    simp only [le4, decide_eq_true_eq]
    exact Nat.le_total _ _
  · intro a b c
    simp only [le4, decide_eq_true_eq]
    exact Nat.le_trans

theorem isTotalTrans_le6 : IsTotalTrans le6 := by
  constructor
  · intro a b
    simp only [le6, decide_eq_true_eq]
    exact Nat.le_total _ _
  · intro a b c
    simp only [le6, decide_eq_true_eq]
    exact Nat.le_trans

theorem listLe_total (a b : List Char) : listLe a b = true ∨ listLe b a = true := by
  induction a generalizing b with
  | nil => exact Or.inl rfl
  | cons x xs ih =>
    cases b with
    | nil => exact Or.inr rfl
    | cons y ys =>
      rcases lt_trichotomy x y with h | h | h
      · exact Or.inl (by simp [listLe, h])
      · subst h
        rcases ih ys with h1 | h1
        · exact Or.inl (by simp [listLe, lt_irrefl, h1])
        · exact Or.inr (by simp [listLe, lt_irrefl, h1])
      · exact Or.inr (by simp [listLe, h])

theorem listLe_trans {a b c : List Char} (h1 : listLe a b = true) (h2 : listLe b c = true) :
    listLe a c = true := by
  induction a generalizing b c with
  | nil => rfl
  | cons x xs ih =>
    cases b with
    | nil => simp [listLe] at h1
    | cons y ys =>
      cases c with
      | nil => simp [listLe] at h2
      | cons z zs =>
        rcases lt_trichotomy x y with hxy | hxy | hxy
        · rcases lt_trichotomy y z with hyz | hyz | hyz
          · simp [listLe, lt_trans hxy hyz]
          · subst hyz
            simp [listLe, hxy]
          · simp [listLe, hyz, asymm hyz] at h2
        · subst hxy
          rcases lt_trichotomy x z with hyz | hyz | hyz
          · simp [listLe, hyz]
          · subst hyz
            simp only [listLe, lt_irrefl, if_false] at h1 h2 ⊢
            exact ih h1 h2
          · simp [listLe, hyz, asymm hyz] at h2
        · simp [listLe, hxy, asymm hxy] at h1

theorem isTotalTrans_strLeB : IsTotalTrans strLeB := by
  constructor
  · intro a b
    exact listLe_total a.toList b.toList
  · intro a b c
    exact listLe_trans

theorem listLe_iff_lex (a b : List Char) :
    listLe a b = true ↔ (List.Lex (fun x y : Char => x < y) a b ∨ a = b) := by
  induction a generalizing b with
  | nil =>
    cases b with
    | nil => simp [listLe]
    | cons y ys => simp [listLe, List.Lex.nil]
  | cons x xs ih =>
    cases b with
    | nil =>
      constructor
      · intro h
        simp [listLe] at h
      · rintro (h | h)
        · cases h
        · cases h
    | cons y ys =>
      rcases lt_trichotomy x y with h | h | h
      · constructor
        · intro _
          exact Or.inl (List.Lex.rel h)
        · intro _
          simp [listLe, h]
      · subst h
        constructor
        · intro hle
          simp only [listLe, lt_irrefl, if_false] at hle
          rcases (ih ys).mp hle with h1 | h1
          · exact Or.inl (List.Lex.cons h1)
          · exact Or.inr (by rw [h1])
        · rintro (h1 | h1)
          · cases h1 with
            | cons h2 =>
              simp only [listLe, lt_irrefl, if_false]
              exact (ih ys).mpr (Or.inl h2)
            | rel h2 => exact absurd h2 (lt_irrefl x)
          · simp only [List.cons.injEq] at h1
            simp only [listLe, lt_irrefl, if_false]
            exact (ih ys).mpr (Or.inr h1.2)
      · constructor
        · intro hle
          simp [listLe, h, asymm h] at hle
        · rintro (h1 | h1)
          · cases h1 with
            | cons h2 => exact absurd rfl (ne_of_gt h)
            | rel h2 => exact absurd h2 (asymm h)
          · simp only [List.cons.injEq] at h1
            exact absurd h1.1 (ne_of_gt h)

theorem strLeB_iff_le {a b : String} : strLeB a b = true ↔ a ≤ b := by
  rw [strLeB, listLe_iff_lex, String.le_iff_toList_le, le_iff_lt_or_eq]
  constructor
  · rintro (h | h)
    · exact Or.inl h
    · exact Or.inr h
  · rintro (h | h)
    · exact Or.inl h
    · exact Or.inr h

theorem mem_sort_items {a : String} {l : List String} : a ∈ sort_items l ↔ a ∈ l := by
  simp only [sort_items]
  split_ifs <;> rw [mem_sortLe, List.mem_dedup]

theorem nodup_sort_items (l : List String) : (sort_items l).Nodup := by
  simp only [sort_items]
  split_ifs <;> exact ((sortLe_perm _ _).nodup_iff).mpr (List.nodup_dedup l)

theorem mem_rawBuckets (excl bdIps : List String) (items : List String) (x : String) :
    (x ∈ (rawBuckets excl bdIps items).1 ↔
       FromInput items x ∧ x ∉ excl ∧ classifyBD bdIps x = true)
    ∧ (x ∈ (rawBuckets excl bdIps items).2.1 ↔ FromInput items x ∧ x ∈ excl)
    ∧ (x ∈ (rawBuckets excl bdIps items).2.2 ↔
       FromInput items x ∧ x ∉ excl ∧ classifyBD bdIps x = false) := by
  induction items with
  | nil => simp [rawBuckets, FromInput]
  | cons item rest ih =>
    obtain ⟨ih1, ih2, ih3⟩ := ih
    have hcons : ∀ y : String,
        FromInput (item :: rest) y ↔ normalize (some item) = some y ∨ FromInput rest y := by
      intro y
      simp [FromInput, List.mem_cons, or_and_right, exists_or]
    cases hn : normalize (some item) with
    | none =>
      refine ⟨?_, ?_, ?_⟩ <;>
        simp only [rawBuckets, hn, ih1, ih2, ih3, hcons, false_or, reduceCtorEq]
    | some n =>
      by_cases hxn : n = x
      · subst hxn
        by_cases hx : n ∈ excl
        · refine ⟨?_, ?_, ?_⟩ <;>
            simp [rawBuckets, hn, hx, ih1, ih2, ih3, hcons]
        · by_cases hc : classifyBD bdIps n = true
          · refine ⟨?_, ?_, ?_⟩ <;>
              simp [rawBuckets, hn, hx, hc, ih1, ih2, ih3, hcons]
          · have hc' : classifyBD bdIps n = false := by
              revert hc
              cases classifyBD bdIps n <;> simp
            refine ⟨?_, ?_, ?_⟩ <;>
              simp [rawBuckets, hn, hx, hc', ih1, ih2, ih3, hcons]
      · have hxn' : ¬ x = n := fun h => hxn h.symm
        by_cases hx : n ∈ excl
        · refine ⟨?_, ?_, ?_⟩ <;>
            simp [rawBuckets, hn, hx, hxn, hxn', ih1, ih2, ih3, hcons]
        · by_cases hc : classifyBD bdIps n = true
          · refine ⟨?_, ?_, ?_⟩ <;>
              simp [rawBuckets, hn, hx, hc, hxn, hxn', ih1, ih2, ih3, hcons]
          · have hc' : classifyBD bdIps n = false := by
              revert hc
              cases classifyBD bdIps n <;> simp
            refine ⟨?_, ?_, ?_⟩ <;>
              simp [rawBuckets, hn, hx, hc', hxn, hxn', ih1, ih2, ih3, hcons]

theorem mem_curate_baseDomains {excl bdIps items : List String} {flag : Bool} {x : String} :
    x ∈ (curate excl bdIps items flag).baseDomains ↔
      FromInput items x ∧ x ∉ excl ∧ classifyBD bdIps x = true := by
  simp only [curate]
  rw [mem_sort_items]
  exact (mem_rawBuckets excl bdIps items x).1

theorem mem_curate_excluded {excl bdIps items : List String} {flag : Bool} {x : String} :
    x ∈ (curate excl bdIps items flag).excluded ↔ FromInput items x ∧ x ∈ excl := by
  simp only [curate]
  rw [mem_sort_items]
  exact (mem_rawBuckets excl bdIps items x).2.1

theorem mem_curate_filtered {excl bdIps items : List String} {flag : Bool} {x : String} :
    x ∈ (curate excl bdIps items flag).filtered ↔
      FromInput items x ∧ x ∉ excl ∧ classifyBD bdIps x = false := by
  simp only [curate]
  rw [mem_sort_items]
  exact (mem_rawBuckets excl bdIps items x).2.2

theorem mem_curate_allItems {excl bdIps items : List String} {flag : Bool} {x : String} :
    x ∈ (curate excl bdIps items flag).allItems ↔ FromInput items x := by
  simp only [curate]
  rw [mem_sort_items]
  simp only [List.mem_append, mem_sort_items]
  rw [(mem_rawBuckets excl bdIps items x).1, (mem_rawBuckets excl bdIps items x).2.1,
    (mem_rawBuckets excl bdIps items x).2.2]
  by_cases hx : x ∈ excl
  · cases hc : classifyBD bdIps x <;> simp [hx, hc]
  · cases hc : classifyBD bdIps x <;> simp [hx, hc]

theorem mem_curate_filteredList {excl bdIps items : List String} {flag : Bool} {x : String} :
    x ∈ (curate excl bdIps items flag).filteredList ↔
      (FromInput items x ∧ x ∉ excl ∧ classifyBD bdIps x = false) ∨
        (flag = false ∧ FromInput items x ∧ x ∉ excl ∧ classifyBD bdIps x = true) := by
  cases flag with
  | true =>
    simp only [curate, if_true, if_pos trivial]
    rw [mem_sort_items]
    rw [(mem_rawBuckets excl bdIps items x).2.2]
    simp
  | false =>
    simp only [curate, Bool.false_eq_true, if_false]
    rw [mem_sortLe, List.mem_dedup]
    simp only [List.mem_append, mem_sort_items]
    rw [(mem_rawBuckets excl bdIps items x).2.2, (mem_rawBuckets excl bdIps items x).1]
    simp

theorem sort_items_eq_of_all4 {l : List String} (h : ∀ s ∈ l, (ipv4ToNat s).isSome = true) :
    sort_items l = sortLe le4 l.dedup := by
  have hc : (l.dedup.all fun s => (ipv4ToNat s).isSome) = true := by
    rw [List.all_eq_true]
    intro s hs
    exact h s (List.mem_dedup.mp hs)
  simp [sort_items, hc]

theorem all_dedup_eq_false {f : String → Bool} {l : List String}
    (h : ¬ ∀ s ∈ l, f s = true) : (l.dedup.all f) = false := by
  rw [Bool.eq_false_iff]
  intro hall
  exact h (fun s hs => List.all_eq_true.mp hall s (List.mem_dedup.mpr hs))

theorem sort_items_eq_of_all6 {l : List String} (h4 : ¬ ∀ s ∈ l, (ipv4ToNat s).isSome = true)
    (h6 : ∀ s ∈ l, (ipv6ToNat s).isSome = true) :
    sort_items l = sortLe le6 l.dedup := by
  have hc1 := all_dedup_eq_false h4
  have hc2 : (l.dedup.all fun s => (ipv6ToNat s).isSome) = true := by
    rw [List.all_eq_true]
    intro s hs
    exact h6 s (List.mem_dedup.mp hs)
  simp [sort_items, hc1, hc2]

theorem sort_items_eq_of_mixed {l : List String}
    (h4 : ¬ ∀ s ∈ l, (ipv4ToNat s).isSome = true)
    (h6 : ¬ ∀ s ∈ l, (ipv6ToNat s).isSome = true) :
    sort_items l = sortLe strLeB l.dedup := by
  have hc1 := all_dedup_eq_false h4
  have hc2 := all_dedup_eq_false h6
  simp [sort_items, hc1, hc2]

/-- C3: for every input batch, exclusion set and base-domain address set,
the Curator's excluded, base-domain and filtered-candidate buckets are
pairwise disjoint, the all-list holds exactly their union, which is exactly
the set of successfully normalized input tokens, and a normalized input
token occurring in the Exclusion Set lands in the excluded bucket and in no
other bucket. -/
theorem c3_partition_disjoint_union (excl bdIps items : List String) (flag : Bool) :
    (∀ x, ¬ (x ∈ (curate excl bdIps items flag).excluded ∧
             x ∈ (curate excl bdIps items flag).baseDomains)) ∧
    (∀ x, ¬ (x ∈ (curate excl bdIps items flag).excluded ∧
             x ∈ (curate excl bdIps items flag).filtered)) ∧
    (∀ x, ¬ (x ∈ (curate excl bdIps items flag).baseDomains ∧
             x ∈ (curate excl bdIps items flag).filtered)) ∧
    (∀ x, x ∈ (curate excl bdIps items flag).allItems ↔
      (x ∈ (curate excl bdIps items flag).excluded ∨
       x ∈ (curate excl bdIps items flag).baseDomains ∨
       x ∈ (curate excl bdIps items flag).filtered)) ∧
    (∀ x, x ∈ (curate excl bdIps items flag).allItems ↔ FromInput items x) ∧
    (∀ x, FromInput items x → x ∈ excl →
      x ∈ (curate excl bdIps items flag).excluded ∧
      x ∉ (curate excl bdIps items flag).baseDomains ∧
      x ∉ (curate excl bdIps items flag).filtered) := by
  refine ⟨?_, ?_, ?_, ?_, ?_, ?_⟩
  · rintro x ⟨h1, h2⟩
    rw [mem_curate_excluded] at h1
    rw [mem_curate_baseDomains] at h2
    exact h2.2.1 h1.2
  · rintro x ⟨h1, h2⟩
    rw [mem_curate_excluded] at h1
    rw [mem_curate_filtered] at h2
    exact h2.2.1 h1.2
  · rintro x ⟨h1, h2⟩
    rw [mem_curate_baseDomains] at h1
    rw [mem_curate_filtered] at h2
    have := h1.2.2.symm.trans h2.2.2
    simp at this
  · intro x
    rw [mem_curate_allItems, mem_curate_excluded, mem_curate_baseDomains, mem_curate_filtered]
    by_cases hx : x ∈ excl
    · cases hc : classifyBD bdIps x <;> simp [hx, hc]
    · cases hc : classifyBD bdIps x <;> simp [hx, hc]
  · intro x
    exact mem_curate_allItems
  · intro x hf hx
    refine ⟨mem_curate_excluded.mpr ⟨hf, hx⟩, ?_, ?_⟩
    · intro h
      exact (mem_curate_baseDomains.mp h).2.1 hx
    · intro h
      exact (mem_curate_filtered.mp h).2.1 hx

/-- Witness for C3 at a concrete batch: the token both present in the input
and in the exclusion set is excluded and nowhere else, although it would
otherwise classify as a base domain. -/
theorem c3_partition_disjoint_union_witness :
    "google.com" ∈ (curate ["google.com"] [] ["google.com", "dns.google.com"] false).excluded ∧
    "google.com" ∉ (curate ["google.com"] [] ["google.com", "dns.google.com"] false).baseDomains ∧
    "google.com" ∉ (curate ["google.com"] [] ["google.com", "dns.google.com"] false).filtered :=
  (c3_partition_disjoint_union ["google.com"] [] ["google.com", "dns.google.com"] false).2.2.2.2.2
    ("google.com") ⟨"google.com", by simp, by rfl⟩ (by simp)

/-- C7: the externally visible filtered sequence holds exactly the
filtered-candidate bucket, together with the base-domain bucket when the
filter-base-domains option is off; with the example batch the filtered
count is 3 with the option disabled and the list is exactly
`dns.google.com` with it enabled. -/
theorem c7_filtered_visibility (excl bdIps items : List String) (flag : Bool) :
    (∀ x, x ∈ (curate excl bdIps items flag).filteredList ↔
        (x ∈ (curate excl bdIps items flag).filtered ∨
          (flag = false ∧ x ∈ (curate excl bdIps items flag).baseDomains))) ∧
    (flag = true → (curate excl bdIps items flag).filteredList =
        (curate excl bdIps items flag).filtered) ∧
    (curate [] [] ["google.com", "dns.google.com", "cloudflare.com"] false).filteredList.length
      = 3 ∧
    (curate [] [] ["google.com", "dns.google.com", "cloudflare.com"] true).filteredList
      = ["dns.google.com"] ∧
    (curate [] [] ["google.com", "dns.google.com", "cloudflare.com"] false).allItems.length = 3 ∧
    (curate [] [] ["google.com", "dns.google.com", "cloudflare.com"] false).baseDomains
      = ["cloudflare.com", "google.com"] := by
  refine ⟨?_, ?_, by rfl, by rfl, by rfl, by rfl⟩
  · intro x
    rw [mem_curate_filteredList, mem_curate_filtered, mem_curate_baseDomains]
  · intro h
    subst h
    rfl

/-- Witness for C7: the option-enabled case of the general clause at a
concrete batch. -/
theorem c7_filtered_visibility_witness :
    (curate [] [] ["google.com", "dns.google.com"] true).filteredList =
      (curate [] [] ["google.com", "dns.google.com"] true).filtered :=
  (c7_filtered_visibility [] [] ["google.com", "dns.google.com"] true).2.1 rfl

/-- C9: every Curator bucket (image of `sort_items`) is deduplicated, keeps
exactly the input's members, and is sorted by the numeric IPv4 value when
every member parses as IPv4, by the numeric IPv6 value when not all parse
as IPv4 but all parse as IPv6, and lexicographically otherwise; the example
list sorts numerically, not lexicographically. -/
theorem c9_bucket_sorting (l : List String) :
    (sort_items l).Nodup ∧
    (∀ a, a ∈ sort_items l ↔ a ∈ l) ∧
    ((∀ s ∈ l, (ipv4ToNat s).isSome = true) →
      (sort_items l).Pairwise (fun a b => key4 a ≤ key4 b)) ∧
    ((¬ ∀ s ∈ l, (ipv4ToNat s).isSome = true) → (∀ s ∈ l, (ipv6ToNat s).isSome = true) →
      (sort_items l).Pairwise (fun a b => key6 a ≤ key6 b)) ∧
    ((¬ ∀ s ∈ l, (ipv4ToNat s).isSome = true) → (¬ ∀ s ∈ l, (ipv6ToNat s).isSome = true) →
      (sort_items l).Pairwise (fun a b => a ≤ b)) ∧
    sort_items ["8.8.4.4", "8.8.8.8", "1.1.1.1"] = ["1.1.1.1", "8.8.4.4", "8.8.8.8"] := by
  refine ⟨nodup_sort_items l, fun a => mem_sort_items, ?_, ?_, ?_, by rfl⟩
  · intro h
    rw [sort_items_eq_of_all4 h]
    exact (pairwise_sortLe isTotalTrans_le4 l.dedup).imp
      (fun hab => by simpa [le4] using hab)
  · intro h4 h6
    rw [sort_items_eq_of_all6 h4 h6]
    exact (pairwise_sortLe isTotalTrans_le6 l.dedup).imp
      (fun hab => by simpa [le6] using hab)
  · intro h4 h6
    rw [sort_items_eq_of_mixed h4 h6]
    exact (pairwise_sortLe isTotalTrans_strLeB l.dedup).imp
      (fun hab => strLeB_iff_le.mp hab)

/-- Witness for C9: the IPv4-sorted clause at the example list. -/
theorem c9_bucket_sorting_witness :
    (sort_items ["8.8.4.4", "8.8.8.8", "1.1.1.1"]).Pairwise (fun a b => key4 a ≤ key4 b) :=
  (c9_bucket_sorting ["8.8.4.4", "8.8.8.8", "1.1.1.1"]).2.2.1 (by decide)

/-- C4: the Change Guard passes exactly when the old count is 0, the new
count is 0, or the quotient new/old lies between `1 - t` and `1 + t`
inclusive; a pass emits no warning; a failure emits a warning carrying the
artifact family and the observed quotient; at `t = 1/5` both edges pass and
the counts just outside the edges fail. -/
theorem c4_ratio_guard (t : ℚ) (oldCount newCount : Nat) (fam : String) :
    ((checkRatioGuard t oldCount newCount fam).1 = true ↔
      (oldCount = 0 ∨ newCount = 0 ∨
        (1 - t ≤ (newCount : ℚ) / (oldCount : ℚ) ∧
          (newCount : ℚ) / (oldCount : ℚ) ≤ 1 + t))) ∧
    ((checkRatioGuard t oldCount newCount fam).1 = true →
      (checkRatioGuard t oldCount newCount fam).2 = none) ∧
    ((checkRatioGuard t oldCount newCount fam).1 = false →
      (checkRatioGuard t oldCount newCount fam).2 =
        some (fam, (newCount : ℚ) / (oldCount : ℚ))) ∧
    (checkRatioGuard (1/5) 100 100 fam).1 = true ∧
    (checkRatioGuard (1/5) 100 80 fam).1 = true ∧
    (checkRatioGuard (1/5) 100 120 fam).1 = true ∧
    (checkRatioGuard (1/5) 100 79 fam).1 = false ∧
    (checkRatioGuard (1/5) 100 121 fam).1 = false ∧
    (checkRatioGuard t 0 newCount fam).1 = true ∧
    (checkRatioGuard t oldCount 0 fam).1 = true := by
  have hedge : ∀ (u : ℚ) (o n : Nat), ¬ (o = 0 ∨ n = 0) →
      checkRatioGuard u o n fam =
        (if (n : ℚ) / (o : ℚ) < 1 - u ∨ 1 + u < (n : ℚ) / (o : ℚ)
          then (false, some (fam, (n : ℚ) / (o : ℚ))) else (true, none)) := by
    intro u o n ho
    simp [checkRatioGuard, ho]
  refine ⟨?_, ?_, ?_, ?_, ?_, ?_, ?_, ?_, by simp [checkRatioGuard], by simp [checkRatioGuard]⟩
  · by_cases ho : oldCount = 0
    · simp [checkRatioGuard, ho]
    · by_cases hn : newCount = 0
      · simp [checkRatioGuard, hn]
      · have h0 : ¬ (oldCount = 0 ∨ newCount = 0) := by tauto
        rw [hedge t oldCount newCount h0]
        by_cases hr : (newCount : ℚ) / (oldCount : ℚ) < 1 - t ∨
            1 + t < (newCount : ℚ) / (oldCount : ℚ)
        · rw [if_pos hr]
          constructor
          · intro h
            simp at h
          · rintro (h | h | ⟨hb1, hb2⟩)
            · exact absurd h ho
            · exact absurd h hn
            · rcases hr with hr | hr
              · exact absurd hb1 (not_le.mpr hr)
              · exact absurd hb2 (not_le.mpr hr)
        · rw [if_neg hr]
          push_neg at hr
          exact iff_of_true rfl (Or.inr (Or.inr ⟨hr.1, hr.2⟩))
  · intro h
    by_cases h0 : oldCount = 0 ∨ newCount = 0
    · simp [checkRatioGuard, h0]
    · rw [hedge t oldCount newCount h0] at h ⊢
      by_cases hr : (newCount : ℚ) / (oldCount : ℚ) < 1 - t ∨
          1 + t < (newCount : ℚ) / (oldCount : ℚ)
      · rw [if_pos hr] at h
        simp at h
      · rw [if_neg hr]
  · intro h
    by_cases h0 : oldCount = 0 ∨ newCount = 0
    · simp [checkRatioGuard, h0] at h
    · rw [hedge t oldCount newCount h0] at h ⊢
      by_cases hr : (newCount : ℚ) / (oldCount : ℚ) < 1 - t ∨
          1 + t < (newCount : ℚ) / (oldCount : ℚ)
      · rw [if_pos hr]
      · rw [if_neg hr] at h
        simp at h
  · rw [hedge (1/5) 100 100 (by simp)]
    norm_num
  · rw [hedge (1/5) 100 80 (by simp)]
    norm_num
  · rw [hedge (1/5) 100 120 (by simp)]
    norm_num
  · rw [hedge (1/5) 100 79 (by simp)]
    norm_num
  · rw [hedge (1/5) 100 121 (by simp)]
    norm_num

/-- Witness for C4: the warning-free pass clause at a concrete
non-comparable baseline. -/
theorem c4_ratio_guard_witness :
    (checkRatioGuard (1/5) 0 5 famFqdn).2 = none :=
  (c4_ratio_guard (1/5) 0 5 famFqdn).2.1 (by simp [checkRatioGuard])

/-- C5 counterexample: the normalized token `"a..b"` splits on dots into
three labels `["a", "", "b"]` whose last two do not form a multi-TLD entry,
so under the claim's rule it is not a base domain; the code first discards
the empty label and accepts it as a two-label base domain. -/
theorem c5_base_domain_cex :
    normalize (some ("a..b")) = some ("a..b") ∧
    is_base_domain ("a..b") = true ∧
    specIsBaseDomain ("a..b") = false := by
  refine ⟨by rfl, by rfl, by rfl⟩

theorem splitCharList_eq_of_not_mem {c : Char} : ∀ {l : List Char},
    l.contains c = false → splitCharList c l = [l] := by
  intro l
  induction l with
  | nil => intro _; rfl
  | cons x xs ih =>
    intro h
    rw [List.contains_cons] at h
    rw [Bool.or_eq_false_iff] at h
    have hxc : (x == c) = false :=
      beq_eq_false_iff_ne.mpr (Ne.symm (beq_eq_false_iff_ne.mp h.1))
    simp only [splitCharList, hxc, Bool.false_eq_true, if_false, ih h.2]

/-- Amended C5: with empty labels discarded (as the code does after
splitting), a token is a base domain exactly when it has two labels, or
three labels whose last two form a multi-TLD entry. -/
theorem c5_base_domain_labels (s : String) :
    (is_base_domain s = true ↔
      ((((splitOnChar '.' s).filter (fun l => ¬ l == "")).length = 2) ∨
        ((((splitOnChar '.' s).filter (fun l => ¬ l == "")).length = 3) ∧
          (((splitOnChar '.' s).filter (fun l => ¬ l == "")).getD
              ((((splitOnChar '.' s).filter (fun l => ¬ l == "")).length) - 2) emptyStr ++
            "." ++
            ((splitOnChar '.' s).filter (fun l => ¬ l == "")).getLastD emptyStr)
            ∈ multi_tlds))) ∧
    is_base_domain ("google.com") = true ∧
    is_base_domain ("dns.google.com") = false ∧
    is_base_domain ("example.co.uk") = true ∧
    is_base_domain ("sub.example.co.uk") = false ∧
    is_base_domain ("localhost") = false ∧
    is_base_domain (".") = false ∧
    is_base_domain ("") = false := by
  refine ⟨?_, by rfl, by rfl, by rfl, by rfl, by rfl, by rfl, by rfl⟩
  by_cases h1 : s = ""
  · subst h1
    decide
  · by_cases h2 : s.toList.contains '.' = true
    · by_cases h3 : s = "."
      · subst h3
        decide
      · simp only [is_base_domain, h1, h2, h3, not_true, Bool.true_eq_false, if_false,
          ite_false, if_neg, not_false_iff, ite_true, if_true]
        set ls := (splitOnChar '.' s).filter (fun l => ¬ l == "") with hls
        by_cases h4 : ls.length = 0
        · simp [h4]
        · simp only [h4, if_false, ite_false]
          by_cases h5 : 3 ≤ ls.length ∧
              (ls.getD (ls.length - 2) emptyStr ++ "." ++ ls.getLastD emptyStr) ∈ multi_tlds
          · rw [if_pos h5]
            constructor
            · intro h
              exact Or.inr ⟨of_decide_eq_true h, h5.2⟩
            · rintro (h | h)
              · exact absurd h5.1 (by omega)
              · exact decide_eq_true h.1
          · rw [if_neg h5]
            constructor
            · intro h
              exact Or.inl (of_decide_eq_true h)
            · rintro (h | h)
              · exact decide_eq_true h
              · exact absurd ⟨by omega, h.2⟩ h5
    · have h2' : s.toList.contains '.' = false := by
        revert h2
        cases s.toList.contains '.' <;> simp
      have hsplit : splitCharList '.' s.toList = [s.toList] :=
        splitCharList_eq_of_not_mem h2'
      have hc2 : ¬ s.toList.contains '.' = true := by
        rw [h2']
        simp
      have hlhs : is_base_domain s = false := by
        simp only [is_base_domain]
        rw [if_neg h1, if_pos hc2]
      rw [hlhs]
      have hlen : ((splitOnChar '.' s).filter (fun l => ¬ l == "")).length ≤ 1 := by
        have hbase : splitOnChar '.' s = [String.mk s.toList] := by
          simp only [splitOnChar, hsplit, List.map_cons, List.map_nil]
        rw [hbase]
        have := List.length_filter_le (fun (l : String) => ¬ l == "") [String.mk s.toList]
        simpa using this
      constructor
      · intro h
        simp at h
      · rintro (h | h)
        · omega
        · omega

/-- Witness for C5 (amended): the label rule instantiated at a concrete
subdomain token. -/
theorem c5_base_domain_labels_witness :
    is_base_domain ("dns.google.com") = false :=
  (c5_base_domain_labels ("dns.google.com")).2.2.1

/-- C6 counterexample: on `"a.."` the code's `rstrip(".")` removes BOTH
trailing dots and yields `"a"`, while the claim (exactly one trailing dot
removed) demands `"a."`. -/
theorem c6_normalize_cex :
    normalize (some ("a..")) = some ("a") ∧
    specNormalize (some ("a..")) = some ("a.") ∧
    (("a" : String) = "a." → False) := by
  refine ⟨by rfl, by rfl, by decide⟩

theorem head_dropWhile_false {p : Char → Bool} : ∀ (l : List Char) (a : Char),
    (l.dropWhile p).head? = some a → p a = false := by
  intro l
  induction l with
  | nil =>
    intro a h
    simp [List.dropWhile] at h
  | cons x xs ih =>
    intro a h
    rw [List.dropWhile] at h
    cases hp : p x with
    | true =>
      rw [hp] at h
      exact ih a h
    | false =>
      rw [hp] at h
      simp only [List.head?] at h
      cases h
      exact hp

theorem rstripDots_no_trailing_dot (t : String) :
    (rstripDots t).toList.getLast? = some ('.') → False := by
  intro h
  have h' : ((t.toList.reverse.dropWhile (fun c => c == '.')).reverse).getLast? = some '.' := h
  rw [List.getLast?_reverse] at h'
  have := head_dropWhile_false t.toList.reverse '.' h'
  simp at this

/-- Amended C6: normalize returns none for absent input and exactly when
trimming, lower-casing and stripping ALL trailing dots leaves the empty
string; otherwise it returns the trimmed, lower-cased value with all
trailing dots removed — so the output never ends in a dot, and
`normalize "a.." = "a"`, not `"a."`. -/
theorem c6_normalize_strips_all_dots :
    (normalize none = none) ∧
    (∀ s, normalize (some s) = none ↔ rstripDots (pyLower (pyStrip s)) = "") ∧
    (∀ s, rstripDots (pyLower (pyStrip s)) ≠ "" →
      normalize (some s) = some (rstripDots (pyLower (pyStrip s)))) ∧
    (∀ s out, normalize (some s) = some out → out.toList.getLast? ≠ some ('.')) ∧
    normalize (some ("  Example.COM  ")) = some ("example.com") ∧
    normalize (some ("DNS.GOOGLE.")) = some ("dns.google") ∧
    normalize (some ("")) = none ∧
    normalize (some ("   ")) = none ∧
    normalize (some ("a..")) = some ("a") := by
  refine ⟨rfl, ?_, ?_, ?_, by rfl, by rfl, by rfl, by rfl, by rfl⟩
  · intro s
    by_cases hs : s = ""
    · subst hs
      constructor
      · intro _
        rfl
      · intro _
        rfl
    · simp only [normalize, hs, if_neg, ite_false]
      by_cases hw : rstripDots (pyLower (pyStrip s)) = ""
      · simp [hw]
      · simp [hw]
  · intro s hw
    have hs : s ≠ "" := by
      intro h
      subst h
      exact hw rfl
    simp [normalize, hs, hw]
  · intro s out hout
    by_cases hs : s = ""
    · subst hs
      simp [normalize] at hout
    · simp only [normalize, hs, if_neg, ite_false] at hout
      by_cases hw : rstripDots (pyLower (pyStrip s)) = ""
      · simp [hw] at hout
      · simp only [hw, if_neg, ite_false, Option.some.injEq] at hout
        subst hout
        exact fun h => rstripDots_no_trailing_dot _ h

/-- Witness for C6 (amended): the non-empty clause at a concrete input. -/
theorem c6_normalize_strips_all_dots_witness :
    normalize (some ("a.b ")) = some (rstripDots (pyLower (pyStrip ("a.b ")))) :=
  c6_normalize_strips_all_dots.2.2.1 ("a.b ") (by decide)

theorem mem_resolve_fqdns {oracle : Oracle} {dnsServers fqdns : List String} {rt a : String} :
    a ∈ resolve_fqdns oracle dnsServers fqdns rt ↔
      ∃ p, p < 5 ∧ ∃ f ∈ fqdns, a ∈ resolve_single_lookup oracle dnsServers rt f p := by
  simp only [resolve_fqdns]
  split_ifs <;>
  · rw [mem_sortLe, List.mem_dedup]
    simp only [List.mem_flatMap, List.mem_range, mem_sortLe, List.mem_dedup]

theorem nodup_resolve_fqdns (oracle : Oracle) (dnsServers fqdns : List String) (rt : String) :
    (resolve_fqdns oracle dnsServers fqdns rt).Nodup := by
  simp only [resolve_fqdns]
  split_ifs <;> exact ((sortLe_perm _ _).nodup_iff).mpr (List.nodup_dedup _)

/-- C2: for a batch of hostnames and record type A or AAAA, an address is
in the resolver's output exactly when some of the five per-pass
single-lookups of some hostname of the batch returned it (so an address
seen only in one pass is kept); the output is deduplicated and sorted by
the numeric value of the address (32-bit IPv4 ordering for A, 128-bit IPv6
ordering for AAAA, never string order); a hostname all of whose per-pass
lookups fail contributes nothing and leaves the other hostnames'
contributions unchanged. -/
theorem c2_resolver_union (oracle : Oracle) (dnsServers fqdns : List String) (rt : String)
    (hrt : rt = rtA ∨ rt = rtAAAA) :
    (∀ a, a ∈ resolve_fqdns oracle dnsServers fqdns rt ↔
      ∃ p, p < 5 ∧ ∃ f ∈ fqdns, a ∈ resolve_single_lookup oracle dnsServers rt f p) ∧
    (resolve_fqdns oracle dnsServers fqdns rt).Nodup ∧
    (resolve_fqdns oracle dnsServers fqdns rt).Pairwise
      (fun a b => numKey rt a ≤ numKey rt b) ∧
    (∀ g, (∀ p, p < 5 → resolve_single_lookup oracle dnsServers rt g p = []) →
      ∀ a, (a ∈ resolve_fqdns oracle dnsServers fqdns rt ↔
        a ∈ resolve_fqdns oracle dnsServers (fqdns.filter (fun f => ! (f == g))) rt)) := by
  refine ⟨fun a => mem_resolve_fqdns, nodup_resolve_fqdns oracle dnsServers fqdns rt, ?_, ?_⟩
  · rcases hrt with hrt | hrt
    · subst hrt
      have hred : resolve_fqdns oracle dnsServers fqdns rtA =
          sortLe le4
            (((List.range 5).flatMap (fun p => (sortLe strLeB fqdns.dedup).flatMap
              (fun f => resolve_single_lookup oracle dnsServers rtA f p))).dedup) := by
        simp [resolve_fqdns]
      rw [hred]
      have hnk : ∀ a b : String, le4 a b = true → numKey rtA a ≤ numKey rtA b := by
        intro a b h
        simp only [numKey, if_pos rfl]
        simpa [le4] using h
      exact (pairwise_sortLe isTotalTrans_le4 _).imp (fun h => hnk _ _ h)
    · subst hrt
      have hAne : ¬ (rtAAAA = rtA) := by decide
      have hred : resolve_fqdns oracle dnsServers fqdns rtAAAA =
          sortLe le6
            (((List.range 5).flatMap (fun p => (sortLe strLeB fqdns.dedup).flatMap
              (fun f => resolve_single_lookup oracle dnsServers rtAAAA f p))).dedup) := by
        simp [resolve_fqdns, hAne]
      rw [hred]
      have hnk : ∀ a b : String, le6 a b = true → numKey rtAAAA a ≤ numKey rtAAAA b := by
        intro a b h
        simp only [numKey, if_neg hAne]
        simpa [le6] using h
      exact (pairwise_sortLe isTotalTrans_le6 _).imp (fun h => hnk _ _ h)
  · intro g hg a
    rw [mem_resolve_fqdns, mem_resolve_fqdns]
    constructor
    · rintro ⟨p, hp, f, hf, ha⟩
      by_cases hfg : f = g
      · subst hfg
        rw [hg p hp] at ha
        cases ha
      · refine ⟨p, hp, f, List.mem_filter.mpr ⟨hf, ?_⟩, ha⟩
        simp [hfg]
    · rintro ⟨p, hp, f, hf, ha⟩
      exact ⟨p, hp, f, (List.mem_filter.mp hf).1, ha⟩

/-- Witness for C2: the union clause instantiated at the spec's
round-robin scenario; the address first seen in pass 2 is in the final
result, which is numerically sorted. -/
theorem c2_resolver_union_witness :
    resolve_fqdns exOracle [] ["host.example"] rtA = ["1.1.1.1", "8.8.8.8"] ∧
    ("8.8.8.8" ∈ resolve_fqdns exOracle [] ["host.example"] rtA ↔
      ∃ p, p < 5 ∧ ∃ f ∈ ["host.example"],
        "8.8.8.8" ∈ resolve_single_lookup exOracle [] rtA f p) :=
  ⟨by rfl, (c2_resolver_union exOracle [] ["host.example"] rtA (Or.inl rfl)).1 ("8.8.8.8")⟩

theorem fsGet_fsSet_self (fs : FileSys) (name content : String) :
    fsGet (fsSet fs name content) name = some content := by
  simp [fsGet, fsSet, List.find?]

theorem find?_filter_of_imp {α} (q r : α → Bool) (l : List α)
    (h : ∀ x, q x = true → r x = true) :
    (l.filter r).find? q = l.find? q := by
  induction l with
  | nil => rfl
  | cons x xs ih =>
    by_cases hq : q x = true
    · rw [List.filter_cons, if_pos (h x hq), List.find?_cons_of_pos _ hq,
        List.find?_cons_of_pos _ hq]
    · have hq' : q x = false := by
        revert hq
        cases q x <;> simp
      cases hr : r x with
      | true =>
        rw [List.filter_cons, if_pos hr, List.find?_cons_of_neg _ (by simp [hq']),
          List.find?_cons_of_neg _ (by simp [hq'])]
        exact ih
      | false =>
        rw [List.filter_cons, if_neg (by simp [hr]), List.find?_cons_of_neg _ (by simp [hq'])]
        exact ih

theorem fsGet_fsSet_other (fs : FileSys) {name other : String} (h : ¬ other = name)
    (content : String) :
    fsGet (fsSet fs name content) other = fsGet fs other := by
  simp only [fsGet, fsSet]
  rw [List.find?_cons_of_neg]
  · rw [find?_filter_of_imp]
    intro p hp
    have hpe : p.1 = other := by
      have := of_decide_eq_true (by simpa using hp)
      exact this
    simp [hpe, h]
  · intro hcontra
    exact h (show name = other by simpa using hcontra).symm

/-- C8 counterexample: when the whole batch is excluded, the exclusions
list coincides with the all-list and is non-empty, and the code writes the
exclusions file anyway — the claimed "non-empty AND not textually identical
to the all list" condition does not govern the exclusions (or basedomains)
file. -/
theorem c8_exclusions_written_cex :
    (curate ["a.b"] [] ["a.b"] false).excluded = (curate ["a.b"] [] ["a.b"] false).allItems ∧
    (curate ["a.b"] [] ["a.b"] false).excluded ≠ [] ∧
    fsGet (write_lists [] "r.txt" "f.txt" "e.txt" "b.txt" ["a.b"] [] ["a.b"] false).fs
      ("e.txt") = some (fileText ["a.b"]) := by
  refine ⟨by rfl, by decide, by rfl⟩

/-- C8 (amended): the all-items file is always written; the filtered file
is written exactly when the filtered list is non-empty and differs from
the all-list (otherwise that file is left untouched); the exclusions and
basedomains files are written exactly when their lists are non-empty
(even when identical to the all-list), and left untouched otherwise. -/
theorem c8_write_conditions (fs : FileSys) (rawP filtP exclP baseP : String)
    (excl bdIps items : List String) (flag : Bool)
    (hd1 : rawP ≠ filtP) (hd2 : rawP ≠ exclP) (hd3 : rawP ≠ baseP)
    (hd4 : filtP ≠ exclP) (hd5 : filtP ≠ baseP) (hd6 : exclP ≠ baseP) :
    fsGet (write_lists fs rawP filtP exclP baseP excl bdIps items flag).fs rawP =
      some (fileText (curate excl bdIps items flag).allItems) ∧
    fsGet (write_lists fs rawP filtP exclP baseP excl bdIps items flag).fs filtP =
      (if (curate excl bdIps items flag).filteredList ≠ [] ∧
          (curate excl bdIps items flag).filteredList ≠ (curate excl bdIps items flag).allItems
        then some (fileText (curate excl bdIps items flag).filteredList)
        else fsGet fs filtP) ∧
    fsGet (write_lists fs rawP filtP exclP baseP excl bdIps items flag).fs exclP =
      (if (curate excl bdIps items flag).excluded ≠ []
        then some (fileText (curate excl bdIps items flag).excluded)
        else fsGet fs exclP) ∧
    fsGet (write_lists fs rawP filtP exclP baseP excl bdIps items flag).fs baseP =
      (if (curate excl bdIps items flag).baseDomains ≠ []
        then some (fileText (curate excl bdIps items flag).baseDomains)
        else fsGet fs baseP) := by
  refine ⟨?_, ?_, ?_, ?_⟩ <;>
    simp only [write_lists] <;>
    split_ifs <;>
    simp [fsGet_fsSet_self, fsGet_fsSet_other, hd1, hd2, hd3, hd4, hd5, hd6,
      hd1.symm, hd2.symm, hd3.symm, hd4.symm, hd5.symm, hd6.symm]

/-- Witness for C8 (amended): all four clauses at a concrete batch where
the exclusions file is written although identical to the all-list, and the
filtered file is not written (empty filtered list). -/
theorem c8_write_conditions_witness :
    fsGet (write_lists [] "r.txt" "f.txt" "e.txt" "b.txt" ["a.b"] [] ["a.b"] false).fs
      ("f.txt") =
      (if (curate ["a.b"] [] ["a.b"] false).filteredList ≠ [] ∧
          (curate ["a.b"] [] ["a.b"] false).filteredList ≠
            (curate ["a.b"] [] ["a.b"] false).allItems
        then some (fileText (curate ["a.b"] [] ["a.b"] false).filteredList)
        else fsGet [] ("f.txt")) :=
  (c8_write_conditions [] "r.txt" "f.txt" "e.txt" "b.txt" ["a.b"] [] ["a.b"] false
    (by decide) (by decide) (by decide) (by decide) (by decide) (by decide)).2.1

theorem ratiosOk_collapse_eval (cfg : RunConfig) (htol : cfg.tol = 1/5)
    (hres : cfg.resolveIps = false) :
    ratiosOk cfg nilOracle (prepUrls linesOne) fsPrev = false := by
  simp only [ratiosOk, hres, Bool.false_eq_true, if_false, htol]
  have h1 : count_entries fsPrev fnFqdn = 5 := by rfl
  have h2 : (fqdnBatch (prepUrls linesOne)).length = 1 := by rfl
  rw [h1, h2]
  have h3 : (checkRatioGuard ((1 : ℚ)/5) 5 1 famFqdn).1 = false := by
    simp only [checkRatioGuard]
    rw [if_neg (by simp), if_pos (Or.inl (by norm_num))]
  rw [h3, Bool.false_and, Bool.false_and]

/-- C1 (amended): when the ratio check is active and fails, `run` exits
non-zero without writing any output file; the previous run's files survive
exactly when the clean-output option is DISABLED — with it enabled (the
default) the previous `*.txt` files are already deleted before the guard
runs, as the counterexample shows. -/
theorem c1_guard_failure_preserves_outputs (cfg : RunConfig) (oracle : Oracle)
    (lines : List String) (fs0 : FileSys)
    (hclean : cfg.cleanOutput = false)
    (hskip : cfg.skipRatioCheck = false)
    (hfail : ratiosOk cfg oracle (prepUrls lines) fs0 = false) :
    run cfg oracle (some lines) fs0 = (some 1, fs0) := by
  simp [run, hclean, hskip, hfail]

/-- Witness for C1 (amended): the concrete collapsed batch with cleanup
disabled; the run fails with exit 1 and the directory is returned
untouched. -/
theorem c1_guard_failure_preserves_outputs_witness :
    run cfgNoClean nilOracle (some linesOne) fsPrev = (some 1, fsPrev) :=
  c1_guard_failure_preserves_outputs cfgNoClean nilOracle linesOne fsPrev rfl rfl
    (ratiosOk_collapse_eval cfgNoClean rfl rfl)

/-- C1 counterexample: with the default clean-output behaviour the same
guard-failing run exits 1, but the previous run's output file is GONE — it
was deleted before the scraper and the guard ever ran, refuting "every
output file of the previous run is unchanged after the failed run". -/
theorem c1_clean_deletes_before_guard_cex :
    run cfgClean nilOracle (some linesOne) fsPrev = (some 1, []) ∧ fsPrev ≠ [] := by
  constructor
  · have hfail := ratiosOk_collapse_eval cfgClean rfl rfl
    have hclean : cfgClean.cleanOutput = true := rfl
    have hskip : cfgClean.skipRatioCheck = false := rfl
    have hwipe : fsCleanTxt fsPrev = [] := by rfl
    simp [run, hclean, hskip, hfail, hwipe]
  · decide

theorem mem_tryServers {oracle : Oracle} {rt f : String} {p : Nat} :
    ∀ {srvs : List (Option String)} {a : String},
      a ∈ tryServers oracle rt f p srvs →
      ∃ srv ∈ srvs, ∃ att ans, oracle rt f p srv att = some ans ∧ a ∈ ans := by
  intro srvs
  induction srvs with
  | nil =>
    intro a h
    cases h
  | cons srv rest ih =>
    intro a h
    rw [tryServers] at h
    cases h1 : attemptLookup oracle rt f p srv with
    | some ans =>
      rw [h1] at h
      rw [attemptLookup] at h1
      cases h0 : oracle rt f p srv 0 with
      | some ans0 =>
        rw [h0] at h1
        cases h1
        exact ⟨srv, List.mem_cons_self srv rest, 0, ans, h0, h⟩
      | none =>
        rw [h0] at h1
        exact ⟨srv, List.mem_cons_self srv rest, 1, ans, h1, h⟩
    | none =>
      rw [h1] at h
      rcases ih h with ⟨srv2, hsrv2, att, ans, hans, ha⟩
      exact ⟨srv2, List.mem_cons_of_mem srv hsrv2, att, ans, hans, ha⟩

theorem mem_resolve_single_lookup {oracle : Oracle} {dnsServers : List String}
    {rt f : String} {p : Nat} {a : String}
    (h : a ∈ resolve_single_lookup oracle dnsServers rt f p) :
    ∃ srv att ans, oracle rt f p srv att = some ans ∧ a ∈ ans := by
  rcases mem_tryServers h with ⟨srv, _, att, ans, hans, ha⟩
  exact ⟨srv, att, ans, hans, ha⟩

theorem mem_extract_fqdns {urls : List String} {f : String}
    (h : f ∈ extract_fqdns urls) :
    is_ipv4 f = false ∧ is_ipv6 f = false := by
  induction urls with
  | nil => cases h
  | cons url rest ih =>
    rw [extract_fqdns, List.foldr_cons] at h
    have hrest : List.foldr
        (fun url acc =>
          match normalize (some (extractHost url)) with
          | some n => if ¬ is_ipv4 n = true ∧ ¬ is_ipv6 n = true then n :: acc else acc
          | none => acc) [] rest = extract_fqdns rest := by
      rw [extract_fqdns]
    split at h
    · split at h
      · rcases List.mem_cons.mp h with heq | hmem
        · subst heq
          rename_i hip
          exact ⟨by simpa using hip.1, by simpa using hip.2⟩
        · rw [hrest] at hmem
          exact ih hmem
      · rw [hrest] at h
        exact ih h
    · rw [hrest] at h
      exact ih h

/-- C10 (amended): the FQDN batch never contains a valid IPv4 or IPv6
literal — every scraped host normalizing to an address literal is dropped
from it — and every member of an IP artifact's all-list comes, up to
re-normalization, from an address actually returned by some DNS lookup
attempt.  (As the counterexample shows, the original stronger claim that an
IP literal can never appear in a FQDN artifact fails: the per-item
re-normalization inside `_write_lists` can turn a non-literal batch member
such as `"1.1.1.1 "` back into the literal.) -/
theorem c10_ip_literals_dropped (urls : List String) :
    (∀ f ∈ extract_fqdns urls, is_ipv4 f = false ∧ is_ipv6 f = false) ∧
    (∀ f ∈ fqdnBatch urls, is_ipv4 f = false ∧ is_ipv6 f = false) ∧
    (∀ (excl bdIps : List String) (flag : Bool) (oracle : Oracle)
        (dnsServers fqdns : List String) (rt x : String),
      x ∈ (curate excl bdIps (resolve_fqdns oracle dnsServers fqdns rt) flag).allItems →
      ∃ y f p srv att ans, normalize (some y) = some x ∧
        oracle rt f p srv att = some ans ∧ y ∈ ans) := by
  refine ⟨fun f hf => mem_extract_fqdns hf, ?_, ?_⟩
  · intro f hf
    rw [fqdnBatch, mem_sortLe, List.mem_dedup] at hf
    exact mem_extract_fqdns hf
  · intro excl bdIps flag oracle dnsServers fqdns rt x hx
    rcases mem_curate_allItems.mp hx with ⟨y, hy, hnorm⟩
    rcases mem_resolve_fqdns.mp hy with ⟨p, _, f, _, ha⟩
    rcases mem_resolve_single_lookup ha with ⟨srv, att, ans, hans, hya⟩
    exact ⟨y, f, p, srv, att, ans, hnorm, hans, hya⟩

/-- C10 counterexample: the first URL's host normalizes to the valid IPv4
literal `1.1.1.1` and is dropped from the batch; but the second URL's host
normalizes to `"1.1.1.1 "` (not a literal, hence kept in the batch), and
the re-normalization inside `_write_lists` turns it back into `1.1.1.1`,
which therefore appears in the FQDN family's all-list. -/
theorem c10_ip_literal_reappears_cex :
    normalize (some (extractHost ("https://1.1.1.1"))) = some ("1.1.1.1") ∧
    is_ipv4 ("1.1.1.1") = true ∧
    "1.1.1.1" ∉ fqdnBatch (prepUrls urlsCex) ∧
    "1.1.1.1" ∈ (curate [] [] (fqdnBatch (prepUrls urlsCex)) false).allItems := by
  refine ⟨by rfl, by rfl, by decide, by decide⟩

/-- Witness for C10 (amended): the non-literal batch member of the
counterexample batch is indeed neither IPv4 nor IPv6. -/
theorem c10_ip_literals_dropped_witness :
    is_ipv4 ("1.1.1.1 ") = false ∧ is_ipv6 ("1.1.1.1 ") = false :=
  (c10_ip_literals_dropped (prepUrls urlsCex)).2.1 ("1.1.1.1 ") (by decide)

end DoH
